import Mathlib

/-!
Verification development for the movie-crawler pipeline
(`src/crawler-new.js`).

The source file's pure logic is embedded shallowly:

* `sanitizeMovieTitle` — the title sanitizer (`sanitizeMovieTitle` in the
  source), including the regex passes for year, quality, keywords and the
  title-cleaning pipeline, modelled over `List Char`.
* `extractMovies` — the per-item extraction loop (each sub-field read may
  fail, yielding `none`; incomplete items are skipped).
* `processMovies` — row construction; the unguarded field access on a
  `null` sanitizer result is modelled as `Option` failure.
* `updateSheetMerge` / `writtenTable` — the pure merge step of
  `updateSheet`.
* `scrollState` / `noChangeCount` — the infinite-scroll stability loop.
* `pipelineSteps` / `crawlAndUpdateRun` — the orchestrator's
  try/catch/finally control flow over abstract stage outcomes.
-/

/-! ### Character classes (JS regex `\w`, `\s`, digits) -/

/-- JS word character `[A-Za-z0-9_]`, as used by the regex boundary `\b`. -/
def isWordChar (c : Char) : Bool :=
  c.isAlpha || c.isDigit || c == '_'

/-- JS whitespace class `\s` (ASCII part), as used by `.trim()` and
`replace(/\s+/g, " ")`. -/
def isSp (c : Char) : Bool :=
  c == ' ' || c == '\t' || c == '\n' || c == '\r' || c == '\x0b' || c == '\x0c'

/-! ### Regex pass for the year: `title.match(/\b(20|19)\d{2}\b/)` -/

/-- Word boundary `\b` after a word character: the rest of the string is
empty or starts with a non-word character. -/
def wordBoundaryAfter : List Char → Bool
  | [] => true
  | c :: _ => !(isWordChar c)

/-- Attempt of `\b(20|19)\d{2}\b` anchored at the current position.
`prevWord` tells whether the character just before this position is a word
character (`false` at the start of the string). -/
def yearHere (prevWord : Bool) : List Char → Option (List Char)
  | a :: b :: c :: d :: rest =>
    if !prevWord && ((a == '2' && b == '0') || (a == '1' && b == '9'))
        && c.isDigit && d.isDigit && wordBoundaryAfter rest then
      some [a, b, c, d]
    else
      none
  | _ => none

/-- Leftmost match of `\b(20|19)\d{2}\b`: try every start position from the
left, as `String.prototype.match` does. -/
def yearScan : Bool → List Char → Option (List Char)
  | _, [] => none
  | prevWord, c :: rest =>
    match yearHere prevWord (c :: rest) with
    | some m => some m
    | none => yearScan (isWordChar c) rest

/-! ### Regex pass for the quality: `title.match(/\b(1080p|720p|2160p)\b/)` -/

/-- The quality alternatives, in the regex's declaration order. -/
def qualityAlts : List (List Char) :=
  [String.data "1080p", String.data "720p", String.data "2160p"]

/-- Attempt of `\b(alt₁|alt₂|…)\b` anchored at the current position, for
alternatives that consist of word characters only. -/
def altHere (alts : List (List Char)) (prevWord : Bool) (l : List Char) :
    Option (List Char) :=
  if prevWord then none
  else alts.find? fun a => a.isPrefixOf l && wordBoundaryAfter (l.drop a.length)

/-- Leftmost match of the alternation, scanning start positions from the
left. -/
def altScan (alts : List (List Char)) : Bool → List Char → Option (List Char)
  | _, [] => none
  | prevWord, c :: rest =>
    match altHere alts prevWord (c :: rest) with
    | some m => some m
    | none => altScan alts (isWordChar c) rest

/-! ### Keyword pass -/

/-- The fixed keyword vocabulary, in declaration order. -/
def possibleKeywords : List String :=
  ["REMUX", "BluRay", "UNTOUCHED", "HDR10", "IMAX", "Hallowed", "REMASTERED"]

/-- JS `String.prototype.toUpperCase` on the character list (ASCII). -/
def upper (s : String) : List Char :=
  s.data.map Char.toUpper

/-- JS `String.prototype.includes`: does `needle` occur contiguously in
`hay`? -/
def containsSub (needle : List Char) : List Char → Bool
  | [] => needle.isEmpty
  | c :: rest => needle.isPrefixOf (c :: rest) || containsSub needle rest

/-- The keyword filter:
`possibleKeywords.filter(k => title.toUpperCase().includes(k.toUpperCase()))`. -/
def keywordsOf (title : String) : List String :=
  possibleKeywords.filter fun k => containsSub (upper k) (upper title)

/-! ### Title cleaning pipeline -/

/-- Recognized media file extensions of the pass
`replace(/\.(mkv|mp4|mov|avi|wmv|flv|webm)$/i, "")`. -/
def extList : List (List Char) :=
  ["mkv", "mp4", "mov", "avi", "wmv", "flv", "webm"].map String.data

/-- Does `l` end with a literal dot followed by extension `e`,
case-insensitively in the extension letters? -/
def endsWithDotExt (l e : List Char) : Bool :=
  match l.drop (l.length - (e.length + 1)) with
  | c :: rest => c == '.' && rest.map Char.toLower == e
  | [] => false

/-- The pass `replace(/\.(mkv|mp4|mov|avi|wmv|flv|webm)$/i, "")`. -/
def stripExt (l : List Char) : List Char :=
  match extList.find? (endsWithDotExt l) with
  | some e => l.take (l.length - (e.length + 1))
  | none => l

/-- The pass `replace(/\./g, " ")`. -/
def dotToSpace (c : Char) : Char :=
  if c == '.' then ' ' else c

/-- Membership in the class `[\[\]\(\)\-\_\/]`. -/
def isPunct (c : Char) : Bool :=
  c == '[' || c == ']' || c == '(' || c == ')' || c == '-' || c == '_' || c == '/'

/-- The pass `replace(/[\[\]\(\)\-\_\/]/g, " ")`. -/
def punctToSpace (c : Char) : Char :=
  if isPunct c then ' ' else c

/-- JS `String.prototype.trim`: whitespace dropped from both ends. -/
def trimChars (l : List Char) : List Char :=
  (l.dropWhile isSp).rdropWhile isSp

/-- Worker for `replace(/\s+/g, " ")`: `prevSp` records whether the previous
kept character position was inside a whitespace run. -/
def collapseWsAux : Bool → List Char → List Char
  | _, [] => []
  | prevSp, c :: rest =>
    if isSp c then
      if prevSp then collapseWsAux true rest
      else ' ' :: collapseWsAux true rest
    else c :: collapseWsAux false rest

/-- The pass `replace(/\s+/g, " ")`: each maximal whitespace run becomes one
space. -/
def collapseWs (l : List Char) : List Char :=
  collapseWsAux false l

/-- Do four consecutive digits start at the current position? (`/\d{4}/`) -/
def fourDigitsHere : List Char → Bool
  | a :: b :: c :: d :: _ => a.isDigit && b.isDigit && c.isDigit && d.isDigit
  | _ => false

/-- The pass `split(/\d{4}/)[0]`: the prefix before the leftmost run of four
consecutive digits (the whole string if there is none). -/
def before4Digits : List Char → List Char
  | [] => []
  | c :: rest =>
    if fourDigitsHere (c :: rest) then [] else c :: before4Digits rest

/-- The `sanitizedTitle` chain of the source: extension strip, dots and
punctuation to spaces, trim, whitespace collapse. -/
def cleanedChars (l : List Char) : List Char :=
  collapseWs (trimChars (((stripExt l).map dotToSpace).map punctToSpace))

/-- The value stored in the result's `sanitized-title` field:
`sanitizedTitle.split(/\d{4}/)[0].trim()`. -/
def sanitizedTitleOf (l : List Char) : List Char :=
  trimChars (before4Digits (cleanedChars l))

/-- JS `Array.prototype.join(",")`. -/
def joinComma : List String → String
  | [] => ""
  | [s] => s
  | s :: rest => s ++ "," ++ joinComma rest

/-! ### The sanitizer -/

/-- Result shape of `sanitizeMovieTitle` (the source's object literal with
keys `sanitized-title`, `year`, `quality`, `keywords`). -/
structure SanitizedFields where
  sanitizedTitle : String
  year : String
  quality : String
  keywords : String
deriving Repr, DecidableEq

/-- The source's `sanitizeMovieTitle`. The argument is `none` for a
null/undefined title; `if (!title) return null` also fires on the empty
string. -/
def sanitizeMovieTitle : Option String → Option SanitizedFields
  | none => none
  | some t =>
    if t.data = [] then none
    else
      some
        { sanitizedTitle := ⟨sanitizedTitleOf t.data⟩
          year :=
            match yearScan false t.data with
            | some m => ⟨m⟩
            | none => ""
          quality :=
            match altScan qualityAlts false t.data with
            | some m => ⟨m⟩
            | none => ""
          keywords := joinComma (keywordsOf t) }

/-! ### Record extraction (the loop over `divs` in `crawlAndUpdate`) -/

/-- One movie object pushed into `movieData`. -/
structure RawListing where
  originalTitle : String
  url : String
  size : String
deriving Repr, DecidableEq

/-- One list-item handle: the three sub-field reads each either succeed with
the text or fail (`.catch(() => null)` makes the read yield `null`). -/
structure ItemHandle where
  titleText : Option String
  inputValue : Option String
  badgeText : Option String
deriving Repr, DecidableEq

/-- JS truthiness of a possibly-null string: `null`/`undefined` and the empty
string are falsy. -/
def truthyStr : Option String → Bool
  | none => false
  | some s => !s.isEmpty

/-- The extraction loop: `if (originalTitle && dlurl && size)` pushes the
record, otherwise the item is skipped. -/
def extractMovies (divs : List ItemHandle) : List RawListing :=
  divs.filterMap fun d =>
    if truthyStr d.titleText && truthyStr d.inputValue && truthyStr d.badgeText then
      some ⟨d.titleText.getD "", d.inputValue.getD "", d.badgeText.getD ""⟩
    else
      none

/-! ### Row construction (`processMovies`) -/

/-- One row of `processMovies`' map. The source accesses
`sanitized["sanitized-title"]` without a null check; a `null` sanitizer
result would raise a `TypeError`, modelled by `none`. -/
def processMovie (movie : RawListing) : Option (List String) :=
  match sanitizeMovieTitle (some movie.originalTitle) with
  | none => none
  | some s =>
    some [movie.originalTitle, movie.url, movie.size, s.sanitizedTitle,
      s.year, s.quality, s.keywords]

/-- The source's `processMovies`: `none` models the map raising on some
element. -/
def processMovies (movies : List RawListing) : Option (List (List String)) :=
  movies.mapM processMovie

/-! ### The merge step of `updateSheet` -/

/-- JS `row[0]`: the first cell of a row, `none` (undefined) for an empty
row. -/
def keyOf (row : List String) : Option String :=
  row.head?

/-- The header row written as row 0. -/
def headersRow : List String :=
  ["original-title", "url", "size", "sanitized-title", "year", "quality",
    "keywords"]

/-- Pure core of `updateSheet`: `values` is the sheet read (header row
included, `slice(1)` drops it), `processedMovies` the fresh rows. Mirrors

existingMovies = Set(values.slice(1).map(row => row[0]));
newMovies = processedMovies.filter(m => !existingMovies.has(m[0]));
oldMovies = processedMovies.filter(m => existingMovies.has(m[0]));
orderedMovies = [...newMovies.slice(0, 10), ...oldMovies]

and returns `orderedMovies`. -/
def updateSheetMerge (processedMovies values : List (List String)) :
    List (List String) :=
  let existingMovies := (values.drop 1).map keyOf
  let newMovies := processedMovies.filter fun m => !existingMovies.contains (keyOf m)
  let oldMovies := processedMovies.filter fun m => existingMovies.contains (keyOf m)
  newMovies.take 10 ++ oldMovies

/-- The full table written back: `[...headers, ...orderedMovies]`. -/
def writtenTable (processedMovies values : List (List String)) :
    List (List String) :=
  headersRow :: updateSheetMerge processedMovies values

/-! ### Scroll controller state (`prevContentLength` / `noChangeCount`) -/

/-- State (`prevContentLength`, `noChangeCount`) after `n` executions of the
scroll-loop body, where `counts i` is the item count the page reports in the
`i`-th body. Both counters start at 0; a body increments the streak when the
count equals the previous one and resets it to 0 otherwise, then stores the
count. -/
def scrollState (counts : Nat → Nat) : Nat → Nat × Nat
  | 0 => (0, 0)
  | n + 1 =>
    let p := scrollState counts n
    let c := counts n
    (c, if c = p.1 then p.2 + 1 else 0)

/-- The value of `noChangeCount` after `n` loop bodies. -/
def noChangeCount (counts : Nat → Nat) (n : Nat) : Nat :=
  (scrollState counts n).2

/-! ### Orchestrator control flow (`crawlAndUpdate`) -/

/-- Outcomes of the external stages of one run, abstracting the browser and
the storage backend. A `.error` is the stage throwing. -/
structure RunEnv where
  navOutcome : Except String Unit
  scrollOutcome : Except String Unit
  queryOutcome : Except String (List ItemHandle)
  authOutcome : Except String Unit
  sheetReadOutcome : Except String (List (List String))
  clearOutcome : Except String Unit
  writeOutcome : Except String Unit

/-- The body of `crawlAndUpdate`'s `try` block: login/navigation, the scroll
loop, the item query, the extraction loop (which never throws), `authorize`,
`processMovies`, then `updateSheet`'s read, clear and write. A stage's fault
aborts the sequence. -/
def pipelineSteps (env : RunEnv) : Except String Unit := do
  env.navOutcome
  env.scrollOutcome
  let divs ← env.queryOutcome
  let movieData := extractMovies divs
  env.authOutcome
  let processedMovies ←
    match processMovies movieData with
    | some pm => Except.ok pm
    | none => Except.error "TypeError"
  let values ← env.sheetReadOutcome
  let _ := updateSheetMerge processedMovies values
  env.clearOutcome
  env.writeOutcome

/-- Observable outcome of one run. -/
structure RunOutcome where
  browserClosed : Bool
  writeHappened : Bool
  errorLogged : Bool
  exitNonZero : Bool
deriving Repr, DecidableEq

/-- The `try`/`catch`/`finally` of `crawlAndUpdate`: the `catch` block only
logs the error (it neither rethrows nor sets an exit code), the `finally`
block closes the browser on both paths, and the function returns normally
either way, so the process exit code stays zero. -/
def crawlAndUpdateRun (env : RunEnv) : RunOutcome :=
  match pipelineSteps env with
  | Except.ok _ =>
    { browserClosed := true, writeHappened := true, errorLogged := false,
      exitNonZero := false }
  | Except.error _ =>
    { browserClosed := true, writeHappened := false, errorLogged := true,
      exitNonZero := false }

/-- Concrete run environment whose scroll stage throws. -/
def envScrollFault : RunEnv :=
  { navOutcome := Except.ok (), scrollOutcome := Except.error "boom",
    queryOutcome := Except.ok [], authOutcome := Except.ok (),
    sheetReadOutcome := Except.ok [], clearOutcome := Except.ok (),
    writeOutcome := Except.ok () }

/-! ### Verification-side predicates -/

/-- Two adjacent characters are not both whitespace. -/
def spSep (a b : Char) : Prop :=
  ¬(isSp a = true ∧ isSp b = true)

/-- No run of four consecutive digits occurs anywhere in the list: every
suffix fails the four-digit test at its head. -/
def no4Digits (l : List Char) : Prop :=
  ∀ t, t <:+ l → fourDigitsHere t = false

/-! ### Helper lemmas -/

/-- Extensionality for the string model: equal character data, equal
strings. -/
theorem stringDataExt {s t : String} (h : s.data = t.data) : s = t := by
  cases s
  cases t
  exact congrArg String.mk h

/-- A string whose character data is nonempty is not the empty string. -/
theorem stringNeOfDataNe {s : String} (h : s.data ≠ []) : s ≠ "" := by
  intro e
  exact h (by rw [e])

/-- Converse direction: a nonempty string has nonempty character data. -/
theorem dataNeOfStringNe {s : String} (h : s ≠ "") : s.data ≠ [] := by
  intro e
  exact h (stringDataExt e)

/-- Boolean membership `contains` agrees with list membership. -/
theorem containsEqMem (l : List (Option String)) (x : Option String) :
    l.contains x = decide (x ∈ l) := by
  simp [List.elem_iff, List.contains]

/-! ### Claim theorems -/

/-- C4 counterexample: on the spec's own example input the code's keywords
field is in vocabulary-declaration order, `"REMUX,BluRay"`, not the claimed
`"BluRay,REMUX"`. -/
theorem C4_counterexample :
    sanitizeMovieTitle (some "The.Thing.2011.1080p.BluRay.REMUX.mkv") ≠
      some
        { sanitizedTitle := "The Thing", year := "2011", quality := "1080p",
          keywords := "BluRay,REMUX" } := by
  decide

/-- C4 (amended): sanitizing `"The.Thing.2011.1080p.BluRay.REMUX.mkv"`
yields sanitized-title `"The Thing"`, year `"2011"`, quality `"1080p"` and
keywords `"REMUX,BluRay"` (matches in vocabulary-declaration order). -/
theorem C4_amended :
    sanitizeMovieTitle (some "The.Thing.2011.1080p.BluRay.REMUX.mkv") =
      some
        { sanitizedTitle := "The Thing", year := "2011", quality := "1080p",
          keywords := "REMUX,BluRay" } := by
  decide

/-- C1 counterexample: with no fresh records and one prior record, the
merged output is empty — the prior record is not carried over, so the
merged output is not "capped new records followed by the entirety of
priorRecords". -/
theorem C1_counterexample :
    updateSheetMerge [] [headersRow, ["A", "u", "s"]] = [] ∧
    updateSheetMerge [] [headersRow, ["A", "u", "s"]] ≠ [["A", "u", "s"]] := by
  decide

/-- C1 (amended): the merged output equals the first 10 fresh records whose
key is not among the prior keys, concatenated with the fresh records whose
key is among the prior keys; every merged row comes from the fresh records,
so a prior entry survives only if it was re-observed in this run. -/
theorem C1_amended (fresh values : List (List String)) :
    updateSheetMerge fresh values =
      (fresh.filter fun m =>
          decide (keyOf m ∉ (values.drop 1).map keyOf)).take 10 ++
        fresh.filter (fun m => decide (keyOf m ∈ (values.drop 1).map keyOf)) ∧
    ∀ row ∈ updateSheetMerge fresh values, row ∈ fresh := by
  constructor
  · show
      (fresh.filter fun m =>
          !((values.drop 1).map keyOf).contains (keyOf m)).take 10 ++
        fresh.filter (fun m => ((values.drop 1).map keyOf).contains (keyOf m)) = _
    congr 1
    · congr 1
      apply List.filter_congr
      intro m _
      rw [containsEqMem]
      by_cases h : keyOf m ∈ (values.drop 1).map keyOf <;> simp [h]
    · apply List.filter_congr
      intro m _
      rw [containsEqMem]
  · intro row hrow
    rcases List.mem_append.1 hrow with h | h
    · exact List.mem_of_mem_filter (List.mem_of_mem_take h)
    · exact List.mem_of_mem_filter h

/-- C2 counterexample: in the spec's concrete instance — 12 fresh records
with new keys, 3 fresh records whose keys are among 50 prior rows — the
merged output has 13 rows, not the claimed 60; and on a key conflict the
freshly observed row is what survives, not the prior row. -/
theorem C2_counterexample :
    (updateSheetMerge
        (((List.range 12).map fun i => ["N" ++ toString i]) ++
          ((List.range 3).map fun i => ["P" ++ toString i, "new"]))
        (headersRow ::
          (List.range 50).map fun i => ["P" ++ toString i, "old"])).length = 13 ∧
    (13 : Nat) ≠ 60 ∧
    updateSheetMerge [["K", "new"]] [headersRow, ["K", "old"]] = [["K", "new"]] ∧
    ["K", "old"] ∉ updateSheetMerge [["K", "new"]] [headersRow, ["K", "old"]] := by
  decide

/-- C2 (amended): the suffix of the merged output is the fresh records whose
key is already among the prior keys, in fresh order and with the freshly
observed field values (fresh data wins on conflict); in the spec's concrete
instance the merged output has 10 + 3 = 13 rows. -/
theorem C2_amended :
    (∀ fresh values : List (List String),
        (fresh.filter fun m =>
            ((values.drop 1).map keyOf).contains (keyOf m)) <:+
          updateSheetMerge fresh values) ∧
    (updateSheetMerge
        (((List.range 12).map fun i => ["N" ++ toString i]) ++
          ((List.range 3).map fun i => ["P" ++ toString i, "new"]))
        (headersRow ::
          (List.range 50).map fun i => ["P" ++ toString i, "old"])).length = 13 := by
  constructor
  · intro fresh values
    exact ⟨_, rfl⟩
  · decide

/-- C3 counterexample: a fresh list with a repeated key and a prior set with
unique keys produce a table holding two records with the same
originalTitle. -/
theorem C3_counterexample :
    updateSheetMerge [["A", "u"], ["A", "v"]] [headersRow] =
      [["A", "u"], ["A", "v"]] ∧
    ¬ ((updateSheetMerge [["A", "u"], ["A", "v"]] [headersRow]).map keyOf).Nodup := by
  decide

/-- C3 (amended): when the fresh records' keys are pairwise distinct, the
table produced by one sync contains no two records with equal
originalTitle. -/
theorem C3_amended (fresh values : List (List String))
    (hf : (fresh.map keyOf).Nodup) :
    ((updateSheetMerge fresh values).map keyOf).Nodup := by
  show
    (((fresh.filter fun m =>
        !((values.drop 1).map keyOf).contains (keyOf m)).take 10 ++
      fresh.filter (fun m =>
        ((values.drop 1).map keyOf).contains (keyOf m))).map keyOf).Nodup
  rw [List.map_append]
  refine List.Nodup.append ?_ ?_ ?_
  · exact
      List.Nodup.sublist
        (List.Sublist.map _
          ((List.take_sublist _ _).trans (List.filter_sublist _))) hf
  · exact List.Nodup.sublist (List.Sublist.map _ (List.filter_sublist _)) hf
  · intro k hk1 hk2
    rcases List.mem_map.1 hk1 with ⟨m, hm, rfl⟩
    rcases List.mem_map.1 hk2 with ⟨m', hm', hkey⟩
    have h1 := List.of_mem_filter (List.mem_of_mem_take hm)
    have h2 := List.of_mem_filter hm'
    rw [hkey] at h2
    rw [h2] at h1
    simp at h1

/-- C3 witness. -/
theorem C3_witness :
    ((updateSheetMerge [["A", "u"], ["B", "v"]] [headersRow, ["A", "x"]]).map
        keyOf).Nodup :=
  C3_amended [["A", "u"], ["B", "v"]] [headersRow, ["A", "x"]] (by decide)

/-- C5 counterexample: with a scroll-stage fault the orchestrator does close
the browser and performs no write, but the run does not terminate with a
non-zero outcome — the `catch` block swallows the error and the process
exits normally. -/
theorem C5_counterexample :
    pipelineSteps envScrollFault = Except.error "boom" ∧
    (crawlAndUpdateRun envScrollFault).browserClosed = true ∧
    (crawlAndUpdateRun envScrollFault).writeHappened = false ∧
    (crawlAndUpdateRun envScrollFault).exitNonZero = false :=
  ⟨rfl, rfl, rfl, rfl⟩

/-- C5 (amended): whenever a stage of the pipeline raises, the fault reaches
the orchestrator's `catch`, which logs it; the `finally` closes the browser,
no storage write occurs — but the run terminates with a zero outcome, the
error having been swallowed. The browser is closed on the success path too. -/
theorem C5_amended (env : RunEnv) (e : String)
    (h : pipelineSteps env = Except.error e) :
    crawlAndUpdateRun env =
      { browserClosed := true, writeHappened := false, errorLogged := true,
        exitNonZero := false } ∧
    ∀ env' : RunEnv, (crawlAndUpdateRun env').browserClosed = true := by
  constructor
  · simp [crawlAndUpdateRun, h]
  · intro env'
    unfold crawlAndUpdateRun
    cases pipelineSteps env' <;> rfl

/-- C5 witness. -/
theorem C5_witness :
    crawlAndUpdateRun envScrollFault =
      { browserClosed := true, writeHappened := false, errorLogged := true,
        exitNonZero := false } ∧
    ∀ env' : RunEnv, (crawlAndUpdateRun env').browserClosed = true :=
  C5_amended envScrollFault "boom" rfl

/-- C6: if the observed item count is eventually constant, the scroll loop
terminates: there is a number of loop bodies after which `noChangeCount`
reaches the threshold 5 for the first time, having stayed below 5 in every
earlier body — the loop ends exactly when the streak reaches 5. -/
theorem C6_scroll_terminates (counts : Nat → Nat)
    (h : ∃ N c, ∀ i, N ≤ i → counts i = c) :
    ∃ n, noChangeCount counts n = 5 ∧ ∀ m, m < n → noChangeCount counts m < 5 := by
  obtain ⟨N, c, hc⟩ := h
  have grow : ∀ k, k ≤ (scrollState counts (N + 1 + k)).2 := by
    intro k
    induction k with
    | zero => exact Nat.zero_le _
    | succ k ih =>
      have e1 : N + 1 + (k + 1) = (N + 1 + k) + 1 := by omega
      have e2 : N + 1 + k = (N + k) + 1 := by omega
      rw [e1]
      have hfst : (scrollState counts (N + 1 + k)).1 = counts (N + k) := by
        rw [e2]
        simp [scrollState]
      have hcc : counts (N + 1 + k) = counts (N + k) := by
        rw [hc _ (by omega), hc _ (by omega)]
      show k + 1 ≤ (scrollState counts ((N + 1 + k) + 1)).2
      simp only [scrollState]
      rw [hcc, hfst, if_pos rfl]
      exact Nat.succ_le_succ ih
  have hex : ∃ n, 5 ≤ noChangeCount counts n := ⟨N + 1 + 5, grow 5⟩
  refine ⟨Nat.find hex, ?_, ?_⟩
  · have hn0 : 5 ≤ noChangeCount counts (Nat.find hex) := Nat.find_spec hex
    rcases hfind : Nat.find hex with _ | m
    · rw [hfind] at hn0
      simp [noChangeCount, scrollState] at hn0
    · have hmlt : noChangeCount counts m < 5 := by
        have := Nat.find_min hex (m := m) (by omega)
        omega
      rw [hfind] at hn0
      have hsplit :
          noChangeCount counts (m + 1) = noChangeCount counts m + 1 ∨
            noChangeCount counts (m + 1) = 0 := by
        simp only [noChangeCount, scrollState]
        by_cases hif : counts m = (scrollState counts m).1
        · rw [if_pos hif]
          exact Or.inl rfl
        · rw [if_neg hif]
          exact Or.inr rfl
      unfold noChangeCount at hn0 hmlt hsplit ⊢
      omega
  · intro m hm
    have := Nat.find_min hex hm
    omega

/-- C6 witness. -/
theorem C6_witness :
    ∃ n, noChangeCount (fun _ => 0) n = 5 ∧
      ∀ m, m < n → noChangeCount (fun _ => 0) m < 5 :=
  C6_scroll_terminates (fun _ => 0) ⟨0, 0, fun _ _ => rfl⟩

/-- C7: the sanitizer returns null exactly for a null or empty input; any
other string yields a populated result (the embedding is total, so no
exception is possible), whose year and quality fields are the empty string
when the respective regex pass found no match. -/
theorem C7_null_contract (t : Option String) :
    (sanitizeMovieTitle t = none ↔ t = none ∨ t = some "") ∧
    ∀ s : String, t = some s → s ≠ "" →
      ∃ r, sanitizeMovieTitle t = some r ∧
        (yearScan false s.data = none → r.year = "") ∧
        (altScan qualityAlts false s.data = none → r.quality = "") := by
  constructor
  · cases t with
    | none => simp [sanitizeMovieTitle]
    | some s =>
      by_cases h : s.data = []
      · have hs : s = "" := stringDataExt h
        simp [sanitizeMovieTitle, h, hs]
      · have hs : s ≠ "" := stringNeOfDataNe h
        simp [sanitizeMovieTitle, h, hs]
  · intro s hts hs
    subst hts
    have h : s.data ≠ [] := dataNeOfStringNe hs
    simp only [sanitizeMovieTitle, if_neg h]
    refine ⟨_, rfl, ?_, ?_⟩
    · intro hy
      simp [hy]
    · intro hq
      simp [hq]

/-- C7 witness. -/
theorem C7_witness :
    ∃ r, sanitizeMovieTitle (some "x") = some r ∧
      (yearScan false (String.data "x") = none → r.year = "") ∧
      (altScan qualityAlts false (String.data "x") = none → r.quality = "") :=
  (C7_null_contract (some "x")).2 "x" rfl (by decide)

/-- C9: every record emitted by the extraction loop has a nonempty
original title (the truthiness guard), and under that precondition the row
construction never hits a null sanitizer result: processing any extracted
record list succeeds. -/
theorem C9_processing_safe :
    (∀ divs : List ItemHandle, ∀ m ∈ extractMovies divs, m.originalTitle ≠ "") ∧
    ∀ movies : List RawListing, (∀ m ∈ movies, m.originalTitle ≠ "") →
      ∃ rows, processMovies movies = some rows := by
  constructor
  · intro divs m hm
    rcases List.mem_filterMap.1 hm with ⟨d, _, hopt⟩
    by_cases hcond :
        (truthyStr d.titleText && truthyStr d.inputValue && truthyStr d.badgeText) = true
    · rw [if_pos hcond] at hopt
      have hm' := Option.some.inj hopt
      have htitle : truthyStr d.titleText = true := by
        rcases Bool.and_eq_true_iff.1 hcond with ⟨h1, _⟩
        rcases Bool.and_eq_true_iff.1 h1 with ⟨h2, _⟩
        exact h2
      rw [← hm']
      cases hd : d.titleText with
      | none => rw [hd] at htitle; simp [truthyStr] at htitle
      | some s =>
        rw [hd] at htitle
        simp only [truthyStr, Bool.not_eq_true'] at htitle
        simp only [hd, Option.getD_some]
        intro e
        rw [e] at htitle
        simp [String.isEmpty] at htitle
    · rw [if_neg hcond] at hopt
      cases hopt
  · intro movies
    induction movies with
    | nil => exact fun _ => ⟨[], rfl⟩
    | cons m ms ih =>
      intro hall
      obtain ⟨rows, hrows⟩ := ih fun x hx => hall x (List.mem_cons_of_mem m hx)
      have hdata : m.originalTitle.data ≠ [] :=
        dataNeOfStringNe (hall m (List.mem_cons_self m ms))
      have hpm : ∃ row, processMovie m = some row := by
        simp only [processMovie, sanitizeMovieTitle, if_neg hdata]
        exact ⟨_, rfl⟩
      obtain ⟨row, hrow⟩ := hpm
      refine ⟨row :: rows, ?_⟩
      show List.mapM processMovie (m :: ms) = _
      rw [List.mapM_cons, hrow,
        show List.mapM processMovie ms = some rows from hrows]
      rfl

/-- C10: keyword detection is case-insensitive substring matching — a tag is
reported exactly when its uppercased form occurs in the uppercased input,
even inside a longer word (the input containing `Unhallowed` reports
`Hallowed`); the reported list is a sublist of the vocabulary, hence without
duplicates and in vocabulary-declaration order. -/
theorem C10_keyword_detection :
    (∀ s : String,
        List.Sublist (keywordsOf s) possibleKeywords ∧
        (keywordsOf s).Nodup ∧
        ∀ k, k ∈ keywordsOf s ↔
          k ∈ possibleKeywords ∧ containsSub (upper k) (upper s) = true) ∧
    "Hallowed" ∈ keywordsOf "The.Unhallowed.2020.mkv" := by
  constructor
  · intro s
    refine ⟨List.filter_sublist _, ?_, ?_⟩
    · exact List.Nodup.sublist (List.filter_sublist _) (by decide)
    · intro k
      simp [keywordsOf, List.mem_filter]
  · decide

/-! ### Sanitizer idempotence development (whitespace collapse, trim,
four-digit split) -/

theorem collapseWsAux_mem {c : Char} (b : Bool) (l : List Char)
    (h : c ∈ collapseWsAux b l) : c = ' ' ∨ c ∈ l := by
  induction l generalizing b with
  | nil => simp [collapseWsAux] at h
  | cons a rest ih =>
    by_cases hsp : isSp a = true
    · cases b with
      | true =>
        rw [show collapseWsAux true (a :: rest) = collapseWsAux true rest from by
          simp [collapseWsAux, hsp]] at h
        rcases ih true h with h' | h'
        · exact Or.inl h'
        · exact Or.inr (List.mem_cons_of_mem a h')
      | false =>
        rw [show collapseWsAux false (a :: rest) = ' ' :: collapseWsAux true rest from by
          simp [collapseWsAux, hsp]] at h
        rcases List.mem_cons.1 h with h' | h'
        · exact Or.inl h'
        · rcases ih true h' with h'' | h''
          · exact Or.inl h''
          · exact Or.inr (List.mem_cons_of_mem a h'')
    · rw [show collapseWsAux b (a :: rest) = a :: collapseWsAux false rest from by
        simp [collapseWsAux, hsp]] at h
      rcases List.mem_cons.1 h with h' | h'
      · exact Or.inr (by simp [h'])
      · rcases ih false h' with h'' | h''
        · exact Or.inl h''
        · exact Or.inr (List.mem_cons_of_mem a h'')

theorem collapseWsAux_sp_blank (b : Bool) (l : List Char) :
    ∀ c ∈ collapseWsAux b l, isSp c = true → c = ' ' := by
  induction l generalizing b with
  | nil => intro c hc; simp [collapseWsAux] at hc
  | cons a rest ih =>
    intro c hc hcsp
    by_cases hsp : isSp a = true
    · cases b with
      | true =>
        rw [show collapseWsAux true (a :: rest) = collapseWsAux true rest from by
          simp [collapseWsAux, hsp]] at hc
        exact ih true c hc hcsp
      | false =>
        rw [show collapseWsAux false (a :: rest) = ' ' :: collapseWsAux true rest from by
          simp [collapseWsAux, hsp]] at hc
        rcases List.mem_cons.1 hc with h | h
        · exact h
        · exact ih true c h hcsp
    · rw [show collapseWsAux b (a :: rest) = a :: collapseWsAux false rest from by
        simp [collapseWsAux, hsp]] at hc
      rcases List.mem_cons.1 hc with h | h
      · subst h
        exact absurd hcsp hsp
      · exact ih false c h hcsp

theorem collapseWsAux_true_head (l : List Char) :
    ∀ c, (collapseWsAux true l).head? = some c → isSp c = false := by
  induction l with
  | nil => intro c hc; simp [collapseWsAux] at hc
  | cons a rest ih =>
    intro c hc
    by_cases hsp : isSp a = true
    · rw [show collapseWsAux true (a :: rest) = collapseWsAux true rest from by
        simp [collapseWsAux, hsp]] at hc
      exact ih c hc
    · rw [show collapseWsAux true (a :: rest) = a :: collapseWsAux false rest from by
        simp [collapseWsAux, hsp]] at hc
      simp only [List.head?_cons, Option.some.injEq] at hc
      rw [← hc]
      simpa using hsp

theorem collapseWsAux_chain (b : Bool) (l : List Char) :
    List.Chain' spSep (collapseWsAux b l) := by
  induction l generalizing b with
  | nil => simp [collapseWsAux]
  | cons a rest ih =>
    by_cases hsp : isSp a = true
    · cases b with
      | true =>
        rw [show collapseWsAux true (a :: rest) = collapseWsAux true rest from by
          simp [collapseWsAux, hsp]]
        exact ih true
      | false =>
        rw [show collapseWsAux false (a :: rest) = ' ' :: collapseWsAux true rest from by
          simp [collapseWsAux, hsp]]
        rw [List.chain'_cons']
        refine ⟨?_, ih true⟩
        intro y hy
        have hyf : isSp y = false :=
          collapseWsAux_true_head rest y (Option.mem_def.1 hy)
        intro hcon
        rw [hyf] at hcon
        exact Bool.false_ne_true hcon.2
    · rw [show collapseWsAux b (a :: rest) = a :: collapseWsAux false rest from by
        simp [collapseWsAux, hsp]]
      rw [List.chain'_cons']
      refine ⟨?_, ih false⟩
      intro y _
      intro hcon
      exact hsp hcon.1

theorem collapseWsAux_eq_self (l : List Char)
    (h1 : ∀ c ∈ l, isSp c = true → c = ' ')
    (h2 : List.Chain' spSep l) :
    ∀ b : Bool, (b = true → ∀ c, l.head? = some c → isSp c = false) →
      collapseWsAux b l = l := by
  induction l with
  | nil => intro b _; rfl
  | cons a rest ih =>
    intro b hb
    rw [List.chain'_cons'] at h2
    by_cases hsp : isSp a = true
    · have hb' : b = false := by
        cases b with
        | false => rfl
        | true =>
          have hfa := hb rfl a rfl
          rw [hsp] at hfa
          exact absurd hfa (by decide)
      subst hb'
      have ha : a = ' ' := h1 a (List.mem_cons_self a rest) hsp
      rw [show collapseWsAux false (a :: rest) = ' ' :: collapseWsAux true rest from by
        simp [collapseWsAux, hsp]]
      rw [← ha]
      congr 1
      apply ih (fun c hc => h1 c (List.mem_cons_of_mem a hc)) h2.2
      intro _ c hc
      have hsep := h2.1 c (by rw [Option.mem_def]; exact hc)
      by_cases hcs : isSp c = true
      · exact absurd ⟨hsp, hcs⟩ hsep
      · simpa using hcs
    · rw [show collapseWsAux b (a :: rest) = a :: collapseWsAux false rest from by
        simp [collapseWsAux, hsp]]
      congr 1
      exact ih (fun c hc => h1 c (List.mem_cons_of_mem a hc)) h2.2 false
        (fun h => absurd h Bool.false_ne_true)

theorem collapseWs_eq_self {l : List Char}
    (h1 : ∀ c ∈ l, isSp c = true → c = ' ') (h2 : List.Chain' spSep l) :
    collapseWs l = l :=
  collapseWsAux_eq_self l h1 h2 false (fun h => absurd h Bool.false_ne_true)

theorem dropWhile_trimChars (l : List Char) :
    (trimChars l).dropWhile isSp = trimChars l := by
  rcases h : trimChars l with _ | ⟨a, t⟩
  · rfl
  · have hpre : trimChars l <+: l.dropWhile isSp :=
      List.rdropWhile_prefix isSp (l.dropWhile isSp)
    rw [h] at hpre
    obtain ⟨r, hr⟩ := hpre
    have hm : (l.dropWhile isSp).dropWhile isSp = l.dropWhile isSp :=
      List.dropWhile_idempotent isSp l
    rw [← hr] at hm
    have ha : isSp a = false := by
      by_cases hsp : isSp a = true
      · rw [List.cons_append, List.dropWhile_cons, if_pos hsp] at hm
        have hlen := congrArg List.length hm
        have hle : ((t ++ r).dropWhile isSp).length ≤ (t ++ r).length :=
          List.Sublist.length_le (List.IsSuffix.sublist (List.dropWhile_suffix isSp))
        simp only [List.length_cons] at hlen
        omega
      · simpa using hsp
    rw [List.dropWhile_cons]
    simp [ha]

theorem trimChars_idem (l : List Char) : trimChars (trimChars l) = trimChars l := by
  show ((trimChars l).dropWhile isSp).rdropWhile isSp = trimChars l
  rw [dropWhile_trimChars]
  show ((l.dropWhile isSp).rdropWhile isSp).rdropWhile isSp =
    (l.dropWhile isSp).rdropWhile isSp
  rw [List.rdropWhile_idempotent]

theorem trimChars_sublist (l : List Char) : List.Sublist (trimChars l) l :=
  (List.IsPrefix.sublist ( List.rdropWhile_prefix isSp (l.dropWhile isSp))).trans
    (List.IsSuffix.sublist (List.dropWhile_suffix isSp))

theorem trimChars_chain {R : Char → Char → Prop} {l : List Char}
    (h : List.Chain' R l) : List.Chain' R (trimChars l) :=
  List.Chain'.prefix ( List.Chain'.suffix h (List.dropWhile_suffix isSp))
    ( List.rdropWhile_prefix isSp (l.dropWhile isSp))

theorem fourDigitsHere_append (s r : List Char) (h : fourDigitsHere s = true) :
    fourDigitsHere (s ++ r) = true := by
  rcases s with _ | ⟨a, _ | ⟨b, _ | ⟨c, _ | ⟨d, s'⟩⟩⟩⟩
  · simp [fourDigitsHere] at h
  · simp [fourDigitsHere] at h
  · simp [fourDigitsHere] at h
  · simp [fourDigitsHere] at h
  · simpa [fourDigitsHere] using h

theorem before4Digits_isPre (l : List Char) : before4Digits l <+: l := by
  induction l with
  | nil => exact List.nil_prefix
  | cons c rest ih =>
    rw [before4Digits]
    by_cases h : fourDigitsHere (c :: rest) = true
    · rw [if_pos h]
      exact List.nil_prefix
    · rw [if_neg h]
      obtain ⟨t, ht⟩ := ih
      exact ⟨t, by rw [List.cons_append, ht]⟩

theorem four_of_isPre {p l : List Char} (c : Char) (hp : p <+: l)
    (h : fourDigitsHere (c :: p) = true) : fourDigitsHere (c :: l) = true := by
  rcases p with _ | ⟨x, _ | ⟨y, _ | ⟨z, p'⟩⟩⟩
  · simp [fourDigitsHere] at h
  · simp [fourDigitsHere] at h
  · simp [fourDigitsHere] at h
  · obtain ⟨t, ht⟩ := hp
    rw [← ht]
    simp only [fourDigitsHere, List.cons_append] at h ⊢
    exact h

theorem before4Digits_no4 (l : List Char) : no4Digits (before4Digits l) := by
  induction l with
  | nil =>
    intro t ht
    have := List.suffix_nil.1 ht
    subst this
    rfl
  | cons c rest ih =>
    intro t ht
    rw [before4Digits] at ht
    by_cases h : fourDigitsHere (c :: rest) = true
    · rw [if_pos h] at ht
      have := List.suffix_nil.1 ht
      subst this
      rfl
    · rw [if_neg h] at ht
      rcases List.suffix_cons_iff.1 ht with h1 | h1
      · subst h1
        by_cases h4 : fourDigitsHere (c :: before4Digits rest) = true
        · exact absurd (four_of_isPre c (before4Digits_isPre rest) h4) h
        · simpa using h4
      · exact ih t h1

theorem before4Digits_eq_self {l : List Char} (h : no4Digits l) :
    before4Digits l = l := by
  induction l with
  | nil => rfl
  | cons c rest ih =>
    have hc : fourDigitsHere (c :: rest) = false := h _ (List.suffix_refl _)
    have hrest : no4Digits rest :=
      fun t ht => h t (ht.trans (List.suffix_cons c rest))
    rw [before4Digits, if_neg (by simp [hc]), ih hrest]

theorem no4_of_suffix {l t : List Char} (h : no4Digits l) (ht : t <:+ l) :
    no4Digits t :=
  fun s hs => h s (hs.trans ht)

theorem no4_of_isPre {l t : List Char} (h : no4Digits l) (ht : t <+: l) :
    no4Digits t := by
  intro s hs
  obtain ⟨r, hr⟩ := ht
  obtain ⟨q, hq⟩ := hs
  by_cases h4 : fourDigitsHere s = true
  · have hsuf : (s ++ r) <:+ l := ⟨q, by rw [← List.append_assoc, hq, hr]⟩
    exact absurd (fourDigitsHere_append s r h4) (by simp [h (s ++ r) hsuf])
  · simpa using h4

theorem no4_trimChars {l : List Char} (h : no4Digits l) :
    no4Digits (trimChars l) :=
  no4_of_isPre (no4_of_suffix h (List.dropWhile_suffix isSp))
    ( List.rdropWhile_prefix isSp (l.dropWhile isSp))

theorem stripExt_eq_self {l : List Char} (h : '.' ∉ l) : stripExt l = l := by
  have hall : ∀ e ∈ extList, ¬ endsWithDotExt l e = true := by
    intro e _ he
    unfold endsWithDotExt at he
    rcases hdrop : l.drop (l.length - (e.length + 1)) with _ | ⟨c, rest⟩
    · rw [hdrop] at he
      cases he
    · rw [hdrop] at he
      simp only [Bool.and_eq_true, beq_iff_eq] at he
      obtain ⟨hc, -⟩ := he
      subst hc
      exact h (List.mem_of_mem_drop (by rw [hdrop]; exact List.mem_cons_self _ _))
  unfold stripExt
  rw [List.find?_eq_none.2 hall]

theorem punctDot_char (a : Char) :
    punctToSpace (dotToSpace a) ≠ '.' ∧ isPunct (punctToSpace (dotToSpace a)) = false := by
  by_cases h1 : a = '.'
  · subst h1
    decide
  · have hd : dotToSpace a = a := by simp [dotToSpace, h1]
    rw [hd]
    by_cases h2 : isPunct a = true
    · have hp : punctToSpace a = ' ' := by simp [punctToSpace, h2]
      rw [hp]
      decide
    · have hp : punctToSpace a = a := by simp [punctToSpace, h2]
      rw [hp]
      exact ⟨h1, by simpa using h2⟩

theorem cleanedChars_no_dot_punct (l : List Char) :
    ∀ c ∈ cleanedChars l, c ≠ '.' ∧ isPunct c = false := by
  intro c hc
  rcases collapseWsAux_mem false _ hc with h | h
  · subst h
    decide
  · have hmem : c ∈ ((stripExt l).map dotToSpace).map punctToSpace :=
      (trimChars_sublist _).subset h
    rcases List.mem_map.1 hmem with ⟨b, hb, hbc⟩
    rcases List.mem_map.1 hb with ⟨a, _, hab⟩
    rw [← hbc, ← hab]
    exact punctDot_char a

theorem map_eq_self_of {f : Char → Char} {t : List Char}
    (h : ∀ c ∈ t, f c = c) : t.map f = t := by
  rw [show t.map f = t.map id from List.map_congr_left h, List.map_id]

theorem sanitizedTitleOf_idem (l : List Char) :
    sanitizedTitleOf (sanitizedTitleOf l) = sanitizedTitleOf l := by
  set t := sanitizedTitleOf l with ht
  have hsub : List.Sublist t (cleanedChars l) :=
    (trimChars_sublist _).trans
      (List.IsPrefix.sublist (before4Digits_isPre (cleanedChars l)))
  have hmem : ∀ c ∈ t, c ∈ cleanedChars l := fun c hc => hsub.subset hc
  have hnd : ∀ c ∈ t, c ≠ '.' :=
    fun c hc => (cleanedChars_no_dot_punct l c (hmem c hc)).1
  have hnp : ∀ c ∈ t, isPunct c = false :=
    fun c hc => (cleanedChars_no_dot_punct l c (hmem c hc)).2
  have hdot : '.' ∉ t := fun hin => hnd '.' hin rfl
  have h1 : stripExt t = t := stripExt_eq_self hdot
  have h2 : t.map dotToSpace = t :=
    map_eq_self_of fun c hc => by
      simp [dotToSpace, hnd c hc]
  have h3 : t.map punctToSpace = t :=
    map_eq_self_of fun c hc => by
      simp [punctToSpace, hnp c hc]
  have hblank : ∀ c ∈ t, isSp c = true → c = ' ' :=
    fun c hc => collapseWsAux_sp_blank false _ c (hmem c hc)
  have hchainC : List.Chain' spSep (cleanedChars l) := collapseWsAux_chain false _
  have hchain : List.Chain' spSep t :=
    trimChars_chain
      ( List.Chain'.prefix hchainC (before4Digits_isPre (cleanedChars l)))
  have htrim : trimChars t = t := by
    rw [ht]
    exact trimChars_idem (before4Digits (cleanedChars l))
  have hcollapse : collapseWs t = t := collapseWs_eq_self hblank hchain
  have hno4 : no4Digits t := no4_trimChars (before4Digits_no4 (cleanedChars l))
  have hb4 : before4Digits t = t := before4Digits_eq_self hno4
  show trimChars (before4Digits (collapseWs (trimChars
    (((stripExt t).map dotToSpace).map punctToSpace)))) = t
  rw [h1, h2, h3, htrim, hcollapse, hb4, htrim]

/-- Field extraction: a successful sanitizer call stores
`sanitizedTitleOf` of the input's characters in the title field. -/
theorem sanitize_title_field {s : String} {r : SanitizedFields}
    (h : sanitizeMovieTitle (some s) = some r) :
    r.sanitizedTitle = ⟨sanitizedTitleOf s.data⟩ := by
  by_cases hd : s.data = []
  · simp [sanitizeMovieTitle, hd] at h
  · simp only [sanitizeMovieTitle, if_neg hd] at h
    injection h with h'
    rw [← h']

/-- C8: re-sanitizing a sanitized title reproduces it exactly — in
particular (as the claim states, for inputs whose sanitized title has no
further year or quality to strip) the title field does not shrink. -/
theorem C8_title_idempotent (s : String) (r r2 : SanitizedFields)
    (h1 : sanitizeMovieTitle (some s) = some r)
    (h2 : sanitizeMovieTitle (some r.sanitizedTitle) = some r2)
    (_hy : yearScan false r.sanitizedTitle.data = none)
    (_hq : altScan qualityAlts false r.sanitizedTitle.data = none) :
    r2.sanitizedTitle = r.sanitizedTitle ∧
    r.sanitizedTitle.length ≤ r2.sanitizedTitle.length := by
  have hr : r.sanitizedTitle = ⟨sanitizedTitleOf s.data⟩ := sanitize_title_field h1
  have hr2 : r2.sanitizedTitle = ⟨sanitizedTitleOf r.sanitizedTitle.data⟩ :=
    sanitize_title_field h2
  have heq : r2.sanitizedTitle = r.sanitizedTitle := by
    rw [hr2, hr]
    exact congrArg String.mk (sanitizedTitleOf_idem s.data)
  exact ⟨heq, le_of_eq (congrArg String.length heq.symm)⟩

/-- C8 witness. -/
theorem C8_witness :
    ({ sanitizedTitle := "The Thing", year := "", quality := "",
        keywords := "" } : SanitizedFields).sanitizedTitle =
      ({ sanitizedTitle := "The Thing", year := "2011", quality := "1080p",
          keywords := "REMUX,BluRay" } : SanitizedFields).sanitizedTitle ∧
    ({ sanitizedTitle := "The Thing", year := "2011", quality := "1080p",
        keywords := "REMUX,BluRay" } : SanitizedFields).sanitizedTitle.length ≤
      ({ sanitizedTitle := "The Thing", year := "", quality := "",
          keywords := "" } : SanitizedFields).sanitizedTitle.length :=
  C8_title_idempotent "The.Thing.2011.1080p.BluRay.REMUX.mkv" _ _ (by decide)
    (by decide) (by decide) (by decide)
